import Mathlib

/-!
Shallow embedding of the `runner` package (blbgo/runner): a type-directed
dependency-resolution engine.  The embedding follows the variant of
`runner.go` that keeps an explicit `closers` slice (functions `add`, `run`,
`build`, `resolveProvider`, `findParam`, `handleProvidedValue`,
`saveIfCloser`, `close`).

Modelling decisions:
* Go `reflect.Type` values are embedded as the inductive `Ty`: interface
  types (`Ty.iface n`, with `Ty.iface 0` playing the role of the `Main`
  interface type), the distinguished `error` interface type (`Ty.err`,
  whose reflect kind is also Interface), slice types (`Ty.slice t`), and a
  representative non-interface, non-slice type (`Ty.nonIface`).
* Go maps (`produceCounts`, `provideSlice`, `values`) are embedded as
  association lists; a missing key reads as the Go zero value.  The code
  never iterates these maps, so iteration order is irrelevant.
* A produced runtime value is a `GoValue`: an identity (`vid`), its
  nil-ness, the error it denotes when it occupies a trailing `error`
  return slot, which closer contract it implements, and (when it can be
  type-asserted to `Main`) the result of its `Run` method.  Producers in
  the model return fixed values; inputs are still looked up exactly as the
  code does, they just do not alter the outputs, which suffices for the
  control-flow and state properties analysed here.
* Real time in `close` is abstracted into `DelayOutcome`: whether a
  `general.DelayCloser` signals its channel (with which error) before the
  shared timer fires, closes the channel, or lets the timer fire first.
* `build` and `close` additionally return ghost logs: the ids of the
  producers actually invoked (`provider.Call`) and of the closers actually
  invoked, in order.  The logs never influence control flow.
-/

namespace Runner

/-- Embedding of `reflect.Type` restricted to the shapes the runner
distinguishes: interface types, the `error` interface type, slice types and
everything else. -/
inductive Ty where
  | iface : Nat → Ty
  | err : Ty
  | slice : Ty → Ty
  | nonIface : Ty
deriving DecidableEq, Repr

/-- Go `Kind() == reflect.Interface`; the `error` type is itself an
interface type. -/
def Ty.isInterfaceKind : Ty → Bool
  | Ty.iface _ => true
  | Ty.err => true
  | _ => false

/-- Go `Kind() == reflect.Slice`. -/
def Ty.isSliceKind : Ty → Bool
  | Ty.slice _ => true
  | _ => false

/-- The `Main` interface type (`mainType` in runner.go). -/
def mainType : Ty := Ty.iface 0

/-- The error values the runner can produce or observe.  The sentinel
errors of runner.go appear as constructors; `fmt.Errorf("%w type: %v", E, t)`
wrapping is embedded by letting the constructor carry the type.  `custom n`
stands for an arbitrary error value created by user code (a producer, a
closer, or `Main.Run`). -/
inductive Err where
  | producerNil
  | producerNotFunc
  | producerInvalidReturns
  | producerInvalidInputs
  | missingDependency : Ty → Err
  | noProducerMakes : Ty → Err
  | producerReturnedNil : Ty → Err
  | noMain
  | delayCloserTimeout
  | bugNotWaiting : Ty → Err
  | bugMainAssert
  | bugDoneChanClosed
  | bugNonCloser
  | custom : Nat → Err
deriving DecidableEq, Repr

/-- Embeds `errors.Is(err, ErrMissingDependency)`: in the model the wrapped
form is exactly the `missingDependency` constructor. -/
def Err.isMissingDep : Err → Bool
  | Err.missingDependency _ => true
  | _ => false

/-- How a `general.DelayCloser.Close(doneChan)` call interacts with the
shared timeout in `close`: it reports exactly one completion on the
channel before the timer fires, it closes the channel, or the timer fires
first. -/
inductive DelayOutcome where
  | signals : Option Err → DelayOutcome
  | closesChan
  | timesOut
deriving DecidableEq, Repr

/-- Which teardown contract a produced value implements.  A value
implementing both `io.Closer` and `general.DelayCloser` behaves as
`syncCloser` because both type switches in the code test `io.Closer`
first. -/
inductive CloserSpec where
  | notCloser
  | syncCloser : Option Err → CloserSpec
  | delayCloser : DelayOutcome → CloserSpec
deriving DecidableEq, Repr

/-- A runtime value returned by a producer: identity, nil-ness, the error
it denotes when it sits in a trailing `error` slot and is non-nil, its
closer contract, and the result of `Run` when it type-asserts to `Main`
(`none` means the assertion fails). -/
structure GoValue where
  vid : Nat
  isNil : Bool
  errPayload : Err
  closer : CloserSpec
  mainRun : Option (Option Err)
deriving DecidableEq, Repr

/-- What the value map stores under a key: a single value for interface
keys, an ordered slice for slice keys. -/
inductive Stored where
  | single : GoValue → Stored
  | list : List GoValue → Stored
deriving DecidableEq, Repr

/-- `reflect.Append` on the value found under a slice key.  Slice keys only
ever hold `Stored.list` (the `single` case is unreachable; Go would panic
appending to a non-slice). -/
def Stored.appendVal : Stored → GoValue → Stored
  | Stored.list vs, v => Stored.list (vs ++ [v])
  | Stored.single w, v => Stored.list [w, v]

/-- A producer function: identity, parameter types (`In`), and return
slots pairing each declared return type (`Out`) with the value a call
yields there. -/
structure Producer where
  pid : Nat
  params : List Ty
  rets : List (Ty × GoValue)
deriving DecidableEq, Repr

/-- The declared return types of a producer. -/
def Producer.outTys (p : Producer) : List Ty := p.rets.map Prod.fst

/-- The return types after dropping an optional trailing `error`
(`outCount--` in `add`). -/
def Producer.effOutTys (p : Producer) : List Ty :=
  if p.outTys.getLast? = some Ty.err then p.outTys.dropLast else p.outTys

/-- Association-list lookup, embedding a Go map read. -/
def assocGet {α : Type} : List (Ty × α) → Ty → Option α
  | [], _ => none
  | (k, v) :: rest, t => if k = t then some v else assocGet rest t

/-- Association-list write, embedding a Go map write. -/
def assocSet {α : Type} : List (Ty × α) → Ty → α → List (Ty × α)
  | [], t, v => [(t, v)]
  | (k, w) :: rest, t, v =>
    if k = t then (t, v) :: rest else (k, w) :: assocSet rest t v

/-- Reading `produceCounts[t]`: a missing key is 0. -/
def countGet (m : List (Ty × Nat)) (t : Ty) : Nat := (assocGet m t).getD 0

/-- Reading `provideSlice[t]`: a missing key is false. -/
def flagGet (m : List (Ty × Bool)) (t : Ty) : Bool := (assocGet m t).getD false

/-- The `runner` struct.  `closeTimeout` is carried for fidelity; the
real-time wait it bounds is abstracted into `DelayOutcome`. -/
structure RState where
  closeTimeout : Nat
  produceCounts : List (Ty × Nat)
  provideSlice : List (Ty × Bool)
  producers : List Producer
  values : List (Ty × Stored)
  closers : List GoValue
deriving DecidableEq, Repr

/-- Function `new()` in runner.go. -/
def RState.new : RState :=
  { closeTimeout := 20, produceCounts := [], provideSlice := [],
    producers := [], values := [], closers := [] }

/-- Method `SetCloseTimeout`. -/
def RState.setCloseTimeout (r : RState) (d : Nat) : RState :=
  { r with closeTimeout := d }

/-- The argument passed to `add`: nil, a non-function, or a function. -/
inductive AddArg where
  | nilArg
  | nonFunc
  | func : Producer → AddArg
deriving DecidableEq, Repr

/-- The return-type validation loop of `add`: each type must have
interface kind, and its expected-producer count is incremented; the first
invalid type stops the loop, keeping the increments made so far. -/
def addReturns : List (Ty × Nat) → List Ty → List (Ty × Nat) × Option Err
  | counts, [] => (counts, none)
  | counts, t :: rest =>
    if t.isInterfaceKind then
      addReturns (assocSet counts t (countGet counts t + 1)) rest
    else
      (counts, some Err.producerInvalidReturns)

/-- The input validation loop of `add` (the code scans parameters from the
last to the first, so `add` passes the reversed parameter list here): a
slice of an interface marks the element type in `provideSlice`, a bare
interface is valid, anything else stops the loop with
`ErrProducerInvalidInputs`, keeping the marks made so far. -/
def addInputs : List (Ty × Bool) → List Ty → List (Ty × Bool) × Option Err
  | ps, [] => (ps, none)
  | ps, Ty.slice elemT :: rest =>
    if elemT.isInterfaceKind then addInputs (assocSet ps elemT true) rest
    else (ps, some Err.producerInvalidInputs)
  | ps, t :: rest =>
    if t.isInterfaceKind then addInputs ps rest
    else (ps, some Err.producerInvalidInputs)

/-- Function `add` in runner.go. -/
def RState.add (r : RState) (arg : AddArg) : RState × Option Err :=
  match arg with
  | AddArg.nilArg => (r, some Err.producerNil)
  | AddArg.nonFunc => (r, some Err.producerNotFunc)
  | AddArg.func p =>
    match addReturns r.produceCounts p.effOutTys with
    | (counts2, some e) => ({ r with produceCounts := counts2 }, some e)
    | (counts2, none) =>
      match addInputs r.provideSlice p.params.reverse with
      | (ps2, some e) =>
        ({ r with produceCounts := counts2, provideSlice := ps2 }, some e)
      | (ps2, none) =>
        ({ r with
            produceCounts := counts2,
            provideSlice := ps2,
            producers := r.producers ++ [p] }, none)

/-- Function `findParam` in runner.go. -/
def RState.findParam (r : RState) (paramType : Ty) : Except Err Stored :=
  match paramType with
  | Ty.slice elemT =>
    if countGet r.produceCounts elemT > 0 then
      Except.error (Err.missingDependency (Ty.slice elemT))
    else
      match assocGet r.values (Ty.slice elemT) with
      | some v => Except.ok v
      | none => Except.ok (Stored.list [])
  | t =>
    if countGet r.produceCounts t > 0 then
      Except.error (Err.missingDependency t)
    else
      match assocGet r.values t with
      | some v => Except.ok v
      | none => Except.error (Err.noProducerMakes t)

/-- The input-collection loop of `resolveProvider`: the first failing
parameter's error is returned. -/
def RState.findParams (r : RState) : List Ty → Except Err (List Stored)
  | [] => Except.ok []
  | t :: rest =>
    match r.findParam t with
    | Except.error e => Except.error e
    | Except.ok v =>
      match r.findParams rest with
      | Except.error e => Except.error e
      | Except.ok vs => Except.ok (v :: vs)

/-- Function `saveIfCloser` in runner.go. -/
def saveIfCloser (closers : List GoValue) (value : GoValue) : List GoValue :=
  match value.closer with
  | CloserSpec.notCloser => closers
  | _ => closers ++ [value]

/-- Function `handleProvidedValue` in runner.go.  The only error exit (the
BUG check) happens before any state change. -/
def RState.handleProvidedValue (r : RState) (value : GoValue)
    (providedValueType : Ty) : Except Err RState :=
  let waitForCount := countGet r.produceCounts providedValueType
  if waitForCount = 0 then
    Except.error (Err.bugNotWaiting providedValueType)
  else
    let ps :=
      if waitForCount > 1 && !(flagGet r.provideSlice providedValueType) then
        assocSet r.provideSlice providedValueType true
      else r.provideSlice
    let counts := assocSet r.produceCounts providedValueType (waitForCount - 1)
    let closers2 := saveIfCloser r.closers value
    if flagGet ps providedValueType = false then
      Except.ok
        { r with
            produceCounts := counts,
            provideSlice := ps,
            closers := closers2,
            values :=
              assocSet r.values providedValueType (Stored.single value) }
    else
      match assocGet r.values (Ty.slice providedValueType) with
      | some old =>
        Except.ok
          { r with
              produceCounts := counts,
              provideSlice := ps,
              closers := closers2,
              values :=
                assocSet r.values (Ty.slice providedValueType)
                  (old.appendVal value) }
      | none =>
        Except.ok
          { r with
              produceCounts := counts,
              provideSlice := ps,
              closers := closers2,
              values :=
                assocSet r.values (Ty.slice providedValueType)
                  (Stored.list [value]) }

/-- Result of `resolveProvider`: the (possibly partially updated) state,
the returned error, and the ghost flag telling whether `provider.Call` was
reached. -/
structure ResolveResult where
  state : RState
  error : Option Err
  invoked : Bool
deriving DecidableEq, Repr

/-- The results loop of `resolveProvider`: a nil result aborts with
`ErrProducerReturnedNil` wrapping the declared type; otherwise the value is
handed to `handleProvidedValue`.  In Go `result.Type()` is the declared
out type of the slot, hence the pairing. -/
def RState.processResults (r : RState) : List (Ty × GoValue) → ResolveResult
  | [] => { state := r, error := none, invoked := true }
  | (t, v) :: rest =>
    if v.isNil then
      { state := r, error := some (Err.producerReturnedNil t), invoked := true }
    else
      match r.handleProvidedValue v t with
      | Except.error e => { state := r, error := some e, invoked := true }
      | Except.ok r2 => r2.processResults rest

/-- Function `resolveProvider` in runner.go: collect the inputs (any failure is
returned before the call), call the producer, peel off a trailing non-nil
error, then process the remaining results. -/
def RState.resolveProvider (r : RState) (provider : Producer) : ResolveResult :=
  match r.findParams provider.params with
  | Except.error e => { state := r, error := some e, invoked := false }
  | Except.ok _ =>
    match provider.rets.getLast? with
    | some (Ty.err, last) =>
      if last.isNil then r.processResults provider.rets.dropLast
      else { state := r, error := some last.errPayload, invoked := true }
    | _ => r.processResults provider.rets

/-- Outcome of one pass of `build` over the producer list. -/
inductive PassOut where
  | fatal : Err → RState → List Nat → PassOut
  | done : List Err → List Producer → RState → List Nat → PassOut
deriving DecidableEq, Repr

/-- The inner loop of `build`: attempt every producer in order; an error
matching `ErrMissingDependency` is accumulated and the producer deferred
to `waiting`; any other error returns alone, fatally. -/
def buildPass : RState → List Producer → List Err → List Producer →
    List Nat → PassOut
  | r, [], errs, waiting, log => PassOut.done errs waiting r log
  | r, p :: rest, errs, waiting, log =>
    let res := r.resolveProvider p
    let log2 := if res.invoked then log ++ [p.pid] else log
    match res.error with
    | some e =>
      if e.isMissingDep then
        buildPass res.state rest (errs ++ [e]) (waiting ++ [p]) log2
      else PassOut.fatal e res.state log2
    | none => buildPass res.state rest errs waiting log2

/-- Result of `build`: final state, `none` for the nil error slice
(success) or `some errs` for a returned error slice, and the ghost
invocation log. -/
structure BuildOut where
  state : RState
  errsOpt : Option (List Err)
  log : List Nat
deriving DecidableEq, Repr

/-- The outer fixpoint loop of `build`.  The Go loop needs no bound: an
iteration that neither returns fatally nor stalls strictly shrinks the
producer list, as `buildLoop_gas` below makes precise; `gas` is only the
structural recursion handle and the `gas = 0` branch is unreachable from
`RState.build`, which supplies `length + 1`. -/
def buildLoop : Nat → RState → List Nat → BuildOut
  | 0, r, log => { state := r, errsOpt := some [], log := log }
  | gas + 1, r, log =>
    match r.producers with
    | [] =>
      { state := { r with produceCounts := [], provideSlice := [] },
        errsOpt := none, log := log }
    | p :: rest =>
      match buildPass r (p :: rest) [] [] log with
      | PassOut.fatal e r2 log2 =>
        { state := r2, errsOpt := some [e], log := log2 }
      | PassOut.done errs waiting r2 log2 =>
        if waiting.length = (p :: rest).length then
          { state := r2, errsOpt := some errs, log := log2 }
        else buildLoop gas { r2 with producers := waiting } log2

/-- Function `build` in runner.go. -/
def RState.build (r : RState) : BuildOut :=
  buildLoop (r.producers.length + 1) r []

/-- Result of `close`: the error slice, the ghost log of invoked closers
(by `vid`, in invocation order), and whether the loop aborted early. -/
structure CloseOut where
  errs : List Err
  log : List Nat
  aborted : Bool
deriving DecidableEq, Repr

/-- The teardown loop of `close`, already given the closers in processing
order (the code iterates `r.closers` from the last index down, so `close`
passes the reversed list).  A synchronous closer's error is collected and
the loop proceeds; a delay closer blocks on its channel or the shared
timer: a closed channel or a timeout appends its error and returns
immediately; a recorded non-closer appends a BUG error without any
invocation. -/
def closeRev : List GoValue → List Err → List Nat → CloseOut
  | [], errs, log => { errs := errs, log := log, aborted := false }
  | v :: rest, errs, log =>
    match v.closer with
    | CloserSpec.syncCloser none => closeRev rest errs (log ++ [v.vid])
    | CloserSpec.syncCloser (some e) =>
      closeRev rest (errs ++ [e]) (log ++ [v.vid])
    | CloserSpec.delayCloser (DelayOutcome.signals none) =>
      closeRev rest errs (log ++ [v.vid])
    | CloserSpec.delayCloser (DelayOutcome.signals (some e)) =>
      closeRev rest (errs ++ [e]) (log ++ [v.vid])
    | CloserSpec.delayCloser DelayOutcome.closesChan =>
      { errs := errs ++ [Err.bugDoneChanClosed], log := log ++ [v.vid],
        aborted := true }
    | CloserSpec.delayCloser DelayOutcome.timesOut =>
      { errs := errs ++ [Err.delayCloserTimeout], log := log ++ [v.vid],
        aborted := true }
    | CloserSpec.notCloser =>
      closeRev rest (errs ++ [Err.bugNonCloser]) log

/-- Function `close` in runner.go: iterate the recorded closers in reverse
production order. -/
def RState.close (r : RState) (errs : List Err) : CloseOut :=
  closeRev r.closers.reverse errs []

/-- Result of `run`: the error slice and the two ghost logs. -/
structure RunOut where
  errs : List Err
  callLog : List Nat
  closeLog : List Nat
deriving DecidableEq, Repr

/-- Function `run` in runner.go: build; on failure close with the build errors.  On
success extract the `Main` value (its absence appends `ErrNoMain`, a failed
type assertion appends a BUG error), nil the value map, run `Main`, append
its error if any, and always close. -/
def RState.run (r : RState) : RunOut :=
  match (RState.build r).errsOpt with
  | some errs =>
    let c := (RState.build r).state.close errs
    { errs := c.errs, callLog := (RState.build r).log, closeLog := c.log }
  | none =>
    match assocGet (RState.build r).state.values mainType with
    | none =>
      let c := (RState.build r).state.close [Err.noMain]
      { errs := c.errs, callLog := (RState.build r).log, closeLog := c.log }
    | some (Stored.list _) =>
      let c := (RState.build r).state.close [Err.bugMainAssert]
      { errs := c.errs, callLog := (RState.build r).log, closeLog := c.log }
    | some (Stored.single v) =>
      match v.mainRun with
      | none =>
        let c := (RState.build r).state.close [Err.bugMainAssert]
        { errs := c.errs, callLog := (RState.build r).log, closeLog := c.log }
      | some (some e) =>
        let c := RState.close
          { (RState.build r).state with values := [] } [e]
        { errs := c.errs, callLog := (RState.build r).log, closeLog := c.log }
      | some none =>
        let c := RState.close
          { (RState.build r).state with values := [] } []
        { errs := c.errs, callLog := (RState.build r).log, closeLog := c.log }

/-- The errors `run` appends between `build` and `close` — the
entry-point phase — read off `run`'s branches: nothing when `build`
failed; `ErrNoMain` when the singleton `Main` slot is empty; the BUG
assertion error when the stored value cannot be type-asserted to `Main`;
otherwise the error `Main.Run` returned, if any. -/
def mainPhaseErrs (r : RState) : List Err :=
  match (RState.build r).errsOpt with
  | some _ => []
  | none =>
    match assocGet (RState.build r).state.values mainType with
    | none => [Err.noMain]
    | some (Stored.list _) => [Err.bugMainAssert]
    | some (Stored.single v) =>
      match v.mainRun with
      | none => [Err.bugMainAssert]
      | some (some e) => [e]
      | some none => []

/-- The expected-producer count `findParam` consults for a parameter type:
for a slice parameter the element type's count, otherwise the type's own
count. -/
def RState.paramCount (r : RState) (t : Ty) : Nat :=
  match t with
  | Ty.slice elemT => countGet r.produceCounts elemT
  | u => countGet r.produceCounts u

/-- Whether `close` actually invokes a recorded entry (both closer
contracts are invoked; the BUG default case invokes nothing). -/
def invokable (v : GoValue) : Bool :=
  match v.closer with
  | CloserSpec.notCloser => false
  | _ => true

/-- A parameter type `add` accepts: an interface, or a slice of an
interface. -/
def validInput : Ty → Bool
  | Ty.slice elemT => elemT.isInterfaceKind
  | t => t.isInterfaceKind

/-- Occurrence count of a type in a list of types. -/
def tyCount : List Ty → Ty → Nat
  | [], _ => 0
  | u :: rest, t => (if u = t then 1 else 0) + tyCount rest t

/-- A plain produced value: non-nil, no closer contract, not a `Main`. -/
def mkVal (n : Nat) : GoValue :=
  { vid := n, isNil := false, errPayload := Err.producerNil,
    closer := CloserSpec.notCloser, mainRun := none }

/-- A produced value implementing `io.Closer` whose `Close` returns nil. -/
def mkSyncCloser (n : Nat) : GoValue :=
  { vid := n, isNil := false, errPayload := Err.producerNil,
    closer := CloserSpec.syncCloser none, mainRun := none }

/-- A produced value type-asserting to `Main` whose `Run` returns nil. -/
def mkMainVal (n : Nat) : GoValue :=
  { vid := n, isNil := false, errPayload := Err.producerNil,
    closer := CloserSpec.notCloser, mainRun := some none }

/-- Scenario for the mutual-dependency stall: producer A needs `iface 1`
and makes `iface 2`. -/
def prodA : Producer :=
  { pid := 1, params := [Ty.iface 1], rets := [(Ty.iface 2, mkVal 1)] }

/-- Producer B of the mutual-dependency scenario: needs `iface 2` and
makes `iface 1`. -/
def prodB : Producer :=
  { pid := 2, params := [Ty.iface 2], rets := [(Ty.iface 1, mkVal 2)] }

/-- The runner after registering the two mutually dependent producers. -/
def mutualState : RState :=
  ((RState.new.add (AddArg.func prodA)).1.add (AddArg.func prodB)).1

/-- Scenario for teardown order: P1 has no dependencies and makes
`iface 1`; its value implements `io.Closer`. -/
def closerP1 : Producer :=
  { pid := 1, params := [], rets := [(Ty.iface 1, mkSyncCloser 1)] }

/-- P2 of the teardown-order scenario: needs `iface 1`, makes `iface 2`;
its value implements `io.Closer`. -/
def closerP2 : Producer :=
  { pid := 2, params := [Ty.iface 1], rets := [(Ty.iface 2, mkSyncCloser 2)] }

/-- The runner after registering P1 then P2 of the teardown-order
scenario. -/
def closerState : RState :=
  ((RState.new.add (AddArg.func closerP1)).1.add (AddArg.func closerP2)).1

/-- Scenario for the empty-slice binding: a single producer consuming a
slice of `iface 5` (which nothing produces) and supplying `Main`. -/
def sliceConsumer : Producer :=
  { pid := 1, params := [Ty.slice (Ty.iface 5)], rets := [(mainType, mkMainVal 1)] }

/-- The runner after registering only `sliceConsumer`. -/
def sliceState : RState := (RState.new.add (AddArg.func sliceConsumer)).1

/-- Scenario for `ErrNoProducerMakes`: a consumer demanding a bare
`iface 2`, which two other producers supply. -/
def bareConsumer : Producer :=
  { pid := 1, params := [Ty.iface 2], rets := [(Ty.iface 3, mkVal 1)] }

/-- First of the two suppliers of `iface 2`. -/
def supplier1 : Producer :=
  { pid := 2, params := [], rets := [(Ty.iface 2, mkVal 10)] }

/-- Second of the two suppliers of `iface 2`. -/
def supplier2 : Producer :=
  { pid := 3, params := [], rets := [(Ty.iface 2, mkVal 11)] }

/-- The runner after registering the bare consumer and the two
suppliers, in that order. -/
def bareState : RState :=
  (((RState.new.add (AddArg.func bareConsumer)).1.add
      (AddArg.func supplier1)).1.add (AddArg.func supplier2)).1

/-- Adversarial producer whose call returns a non-nil error wrapping
`ErrMissingDependency` (in Go: `func() error { return fmt.Errorf("%w",
ErrMissingDependency) }`). -/
def wrapProducer : Producer :=
  { pid := 1, params := [],
    rets := [(Ty.err,
      { vid := 5, isNil := false,
        errPayload := Err.missingDependency (Ty.iface 7),
        closer := CloserSpec.notCloser, mainRun := none })] }

/-- An ordinary resolvable producer registered after `wrapProducer`. -/
def plainProducer : Producer :=
  { pid := 2, params := [], rets := [(Ty.iface 4, mkVal 6)] }

/-- The runner after registering `wrapProducer` then `plainProducer`. -/
def wrapState : RState :=
  ((RState.new.add (AddArg.func wrapProducer)).1.add
    (AddArg.func plainProducer)).1

/-- First value supplied for `Main` in the two-Main scenario. -/
def mainVal1 : GoValue := mkMainVal 1

/-- Second value supplied for `Main` in the two-Main scenario. -/
def mainVal2 : GoValue := mkMainVal 2

/-- First producer supplying `Main`. -/
def mainProd1 : Producer := { pid := 1, params := [], rets := [(mainType, mainVal1)] }

/-- Second producer supplying `Main`. -/
def mainProd2 : Producer := { pid := 2, params := [], rets := [(mainType, mainVal2)] }

/-- The runner after registering the two `Main` producers. -/
def twoMainState : RState :=
  ((RState.new.add (AddArg.func mainProd1)).1.add (AddArg.func mainProd2)).1

/-- A synchronous closer recorded before the timing-out delay closer. -/
def earlyCloser : GoValue := mkSyncCloser 3

/-- A delay closer that never signals before the shared timer fires. -/
def timeoutCloser : GoValue :=
  { vid := 2, isNil := false, errPayload := Err.producerNil,
    closer := CloserSpec.delayCloser DelayOutcome.timesOut, mainRun := none }

/-- A synchronous closer recorded after the timing-out delay closer
(hence torn down before it). -/
def lateCloser : GoValue := mkSyncCloser 1

/-- A runner state whose recorded closers are, in production order,
`earlyCloser`, `timeoutCloser`, `lateCloser`. -/
def timeoutState : RState :=
  { RState.new with closers := [earlyCloser, timeoutCloser, lateCloser] }

/-- Producer whose parameter list is `(int, []iface3)` — the bare `int`
parameter is invalid — and whose return `iface 2` is valid. -/
def invalidInputProducer : Producer :=
  { pid := 1, params := [Ty.nonIface, Ty.slice (Ty.iface 3)],
    rets := [(Ty.iface 2, mkVal 1)] }

/-- Victim producer for the mixed-parameter counterexample: its first
parameter `iface 2` has no producer at all, its second parameter
`iface 3` is still expected from a pending producer. -/
def mixedConsumer : Producer :=
  { pid := 1, params := [Ty.iface 2, Ty.iface 3], rets := [(mainType, mkMainVal 1)] }

/-- The producer that supplies `iface 3` in the mixed-parameter
counterexample. -/
def ifaceThreeProducer : Producer :=
  { pid := 2, params := [], rets := [(Ty.iface 3, mkVal 2)] }

/-- The runner after registering `mixedConsumer` then
`ifaceThreeProducer`: the state in which pass one first attempts
`mixedConsumer`. -/
def mixedState : RState :=
  ((RState.new.add (AddArg.func mixedConsumer)).1.add
    (AddArg.func ifaceThreeProducer)).1

/-- Writing a key and reading it back yields the written value. -/
theorem assocGet_set_eq {α : Type} (m : List (Ty × α)) (t : Ty) (v : α) :
    assocGet (assocSet m t v) t = some v := by
  induction m with
  | nil => simp [assocSet, assocGet]
  | cons kv rest ih =>
    obtain ⟨k, w⟩ := kv
    by_cases hk : k = t
    · subst hk; simp [assocSet, assocGet]
    · simp [assocSet, assocGet, hk, ih]

/-- Writing one key leaves every other key unchanged. -/
theorem assocGet_set_ne {α : Type} (m : List (Ty × α)) (t u : Ty) (v : α)
    (h : t ≠ u) : assocGet (assocSet m t v) u = assocGet m u := by
  induction m with
  | nil => simp [assocSet, assocGet, h]
  | cons kv rest ih =>
    obtain ⟨k, w⟩ := kv
    by_cases hk : k = t
    · subst hk; simp [assocSet, assocGet, h]
    · by_cases hku : k = u
      · subst hku; simp [assocSet, assocGet, hk]
      · simp [assocSet, assocGet, hk, hku, ih]

/-- The teardown loop only ever appends to the error slice it is given. -/
theorem closeRev_errs_append (l : List GoValue) :
    ∀ (errs : List Err) (log : List Nat),
      ∃ tail, (closeRev l errs log).errs = errs ++ tail := by
  induction l with
  | nil => intro errs log; exact ⟨[], by simp [closeRev]⟩
  | cons v rest ih =>
    intro errs log
    rcases hv : v.closer with _ | oe | od
    · obtain ⟨t, ht⟩ := ih (errs ++ [Err.bugNonCloser]) log
      exact ⟨Err.bugNonCloser :: t, by simp [closeRev, hv, ht]⟩
    · rcases oe with _ | e
      · simpa [closeRev, hv] using ih errs (log ++ [v.vid])
      · obtain ⟨t, ht⟩ := ih (errs ++ [e]) (log ++ [v.vid])
        exact ⟨e :: t, by simp [closeRev, hv, ht]⟩
    · rcases od with oe | _ | _
      · rcases oe with _ | e
        · simpa [closeRev, hv] using ih errs (log ++ [v.vid])
        · obtain ⟨t, ht⟩ := ih (errs ++ [e]) (log ++ [v.vid])
          exact ⟨e :: t, by simp [closeRev, hv, ht]⟩
      · exact ⟨[Err.bugDoneChanClosed], by simp [closeRev, hv]⟩
      · exact ⟨[Err.delayCloserTimeout], by simp [closeRev, hv]⟩

/-- Teardown only ever appends to the error slice it is handed. -/
theorem close_errs_append (st : RState) (errs : List Err) :
    ∃ tail, (st.close errs).errs = errs ++ tail :=
  closeRev_errs_append st.closers.reverse errs []

/-- The closers invoked by the teardown loop are an in-order prefix of
the invokable entries of the list it processes. -/
theorem closeRev_log_order (l : List GoValue) :
    ∀ (errs : List Err) (log : List Nat),
      ∃ rest, (closeRev l errs log).log ++ rest =
        log ++ (l.filter invokable).map GoValue.vid := by
  induction l with
  | nil => intro errs log; exact ⟨[], by simp [closeRev]⟩
  | cons v rest ih =>
    intro errs log
    have hfil : ∀ h : invokable v = true,
        (v :: rest).filter invokable = v :: rest.filter invokable := by
      intro h; simp [List.filter, h]
    rcases hv : v.closer with _ | oe | od
    · have : (v :: rest).filter invokable = rest.filter invokable := by
        simp [List.filter, invokable, hv]
      obtain ⟨tl, htl⟩ := ih (errs ++ [Err.bugNonCloser]) log
      exact ⟨tl, by simp [closeRev, hv, this, htl]⟩
    · have hinv : invokable v = true := by simp [invokable, hv]
      rcases oe with _ | e
      · obtain ⟨tl, htl⟩ := ih errs (log ++ [v.vid])
        exact ⟨tl, by simp [closeRev, hv, hfil hinv]; simpa using htl⟩
      · obtain ⟨tl, htl⟩ := ih (errs ++ [e]) (log ++ [v.vid])
        exact ⟨tl, by simp [closeRev, hv, hfil hinv]; simpa using htl⟩
    · have hinv : invokable v = true := by simp [invokable, hv]
      rcases od with oe | _ | _
      · rcases oe with _ | e
        · obtain ⟨tl, htl⟩ := ih errs (log ++ [v.vid])
          exact ⟨tl, by simp [closeRev, hv, hfil hinv]; simpa using htl⟩
        · obtain ⟨tl, htl⟩ := ih (errs ++ [e]) (log ++ [v.vid])
          exact ⟨tl, by simp [closeRev, hv, hfil hinv]; simpa using htl⟩
      · exact ⟨(rest.filter invokable).map GoValue.vid,
          by simp [closeRev, hv, hfil hinv]⟩
      · exact ⟨(rest.filter invokable).map GoValue.vid,
          by simp [closeRev, hv, hfil hinv]⟩

/-- Processing a concatenation when the first part does not abort:
the loop continues into the second part with the accumulated results. -/
theorem closeRev_append (a b : List GoValue) :
    ∀ (errs : List Err) (log : List Nat),
      (closeRev a errs log).aborted = false →
      closeRev (a ++ b) errs log =
        closeRev b (closeRev a errs log).errs (closeRev a errs log).log := by
  induction a with
  | nil => intro errs log _; simp [closeRev]
  | cons v rest ih =>
    intro errs log hab
    rcases hv : v.closer with _ | oe | od
    · simp [closeRev, hv] at hab ⊢; exact ih _ _ hab
    · rcases oe with _ | e
      · simp [closeRev, hv] at hab ⊢; exact ih _ _ hab
      · simp [closeRev, hv] at hab ⊢; exact ih _ _ hab
    · rcases od with oe | _ | _
      · rcases oe with _ | e
        · simp [closeRev, hv] at hab ⊢; exact ih _ _ hab
        · simp [closeRev, hv] at hab ⊢; exact ih _ _ hab
      · simp [closeRev, hv] at hab
      · simp [closeRev, hv] at hab

/-- Every id in the teardown log comes from the initial log or from the
processed list. -/
theorem closeRev_log_mem (l : List GoValue) :
    ∀ (errs : List Err) (log : List Nat) (n : Nat),
      n ∈ (closeRev l errs log).log → n ∈ log ∨ n ∈ l.map GoValue.vid := by
  induction l with
  | nil => intro errs log n h; simp [closeRev] at h; exact Or.inl h
  | cons v rest ih =>
    intro errs log n h
    have step : n ∈ log ++ [v.vid] ∨ n ∈ rest.map GoValue.vid →
        n ∈ log ∨ n ∈ (v :: rest).map GoValue.vid := by
      rintro (hm | hm)
      · rcases List.mem_append.mp hm with hm1 | hm2
        · exact Or.inl hm1
        · simp at hm2; subst hm2; exact Or.inr (by simp)
      · exact Or.inr (by simp [hm])
    rcases hv : v.closer with _ | oe | od
    · simp [closeRev, hv] at h
      rcases ih _ _ _ h with h1 | h2
      · exact Or.inl h1
      · exact Or.inr (by simp [h2])
    · rcases oe with _ | e
      · simp only [closeRev, hv] at h; exact step (ih _ _ _ h)
      · simp only [closeRev, hv] at h; exact step (ih _ _ _ h)
    · rcases od with oe | _ | _
      · rcases oe with _ | e
        · simp only [closeRev, hv] at h; exact step (ih _ _ _ h)
        · simp only [closeRev, hv] at h; exact step (ih _ _ _ h)
      · simp [closeRev, hv] at h
        rcases h with h1 | h2
        · exact Or.inl h1
        · subst h2; exact Or.inr (by simp)
      · simp [closeRev, hv] at h
        rcases h with h1 | h2
        · exact Or.inl h1
        · subst h2; exact Or.inr (by simp)

/-- When a pass finishes without a fatal error, the error and waiting
accumulators grow together: one `ErrMissingDependency`-matching error per
deferred producer, and the waiting list is bounded by the attempted
list. -/
theorem buildPass_done_facts :
    ∀ (ps : List Producer) (r : RState) (errs0 : List Err)
      (w0 : List Producer) (log0 : List Nat) (errs : List Err)
      (waiting : List Producer) (r2 : RState) (log2 : List Nat),
      buildPass r ps errs0 w0 log0 = PassOut.done errs waiting r2 log2 →
      ∃ eExt wExt, errs = errs0 ++ eExt ∧ waiting = w0 ++ wExt ∧
        eExt.length = wExt.length ∧ (∀ e ∈ eExt, e.isMissingDep = true) ∧
        waiting.length ≤ w0.length + ps.length := by
  intro ps
  induction ps with
  | nil =>
    intro r errs0 w0 log0 errs waiting r2 log2 h
    simp only [buildPass, PassOut.done.injEq] at h
    obtain ⟨h1, h2, h3, h4⟩ := h
    exact ⟨[], [], by simp [h1], by simp [h2], rfl, by simp, by simp [h2]⟩
  | cons p rest ih =>
    intro r errs0 w0 log0 errs waiting r2 log2 h
    simp only [buildPass] at h
    rcases herr : (r.resolveProvider p).error with _ | e
    · simp only [herr] at h
      obtain ⟨eE, wE, h1, h2, h3, h4, h5⟩ := ih _ _ _ _ _ _ _ _ h
      refine ⟨eE, wE, h1, h2, h3, h4, ?_⟩
      simp only [List.length_cons] at h5 ⊢
      omega
    · simp only [herr] at h
      rcases hmd : e.isMissingDep with _ | _
      · simp only [hmd, Bool.false_eq_true, if_false] at h
        exact absurd h (by simp)
      · simp only [hmd, if_true] at h
        obtain ⟨eE, wE, h1, h2, h3, h4, h5⟩ := ih _ _ _ _ _ _ _ _ h
        refine ⟨e :: eE, p :: wE, ?_, ?_, by simp [h3], ?_, ?_⟩
        · simpa using h1
        · simpa using h2
        · intro e' he'
          rcases List.mem_cons.mp he' with rfl | hmem
          · exact hmd
          · exact h4 e' hmem
        · simp only [List.length_append, List.length_cons, List.length_nil]
            at h5 ⊢
          omega

/-- The fuel passed to `buildLoop` is irrelevant as long as it exceeds
the producer-list length: the Go loop needs no bound because every
iteration that neither returns nor stalls strictly shrinks the list. -/
theorem buildLoop_gas :
    ∀ (g1 g2 : Nat) (r : RState) (log : List Nat),
      r.producers.length < g1 → r.producers.length < g2 →
      buildLoop g1 r log = buildLoop g2 r log := by
  intro g1
  induction g1 with
  | zero => intro g2 r log h1 _; omega
  | succ a ih =>
    intro g2 r log h1 h2
    rcases g2 with _ | b
    · omega
    · rcases hp : r.producers with _ | ⟨p, rest⟩
      · simp only [buildLoop, hp]
      · simp only [buildLoop, hp]
        rcases hbp : buildPass r (p :: rest) [] [] log with
          ⟨e, r2, log2⟩ | ⟨errs, waiting, r2, log2⟩
        · simp only [hbp]
        · simp only [hbp]
          by_cases hlen : waiting.length = (p :: rest).length
          · simp [hlen]
          · simp only [if_neg hlen]
            obtain ⟨eE, wE, -, -, -, -, h5⟩ :=
              buildPass_done_facts _ _ _ _ _ _ _ _ _ hbp
            have hlt : waiting.length < rest.length + 1 := by
              simp only [List.length_nil, List.length_cons, Nat.zero_add]
                at h5 hlen
              omega
            have hlena : rest.length + 1 ≤ a := by
              rw [hp] at h1
              simp only [List.length_cons] at h1
              omega
            have hlenb : rest.length + 1 ≤ b := by
              rw [hp] at h2
              simp only [List.length_cons] at h2
              omega
            apply ih
            · show waiting.length < a
              omega
            · show waiting.length < b
              omega

/-- A parameter whose relevant count is positive makes `findParam` fail
with `ErrMissingDependency` wrapping the parameter type. -/
theorem findParam_missing_of_count (r : RState) (t : Ty)
    (h : r.paramCount t > 0) :
    r.findParam t = Except.error (Err.missingDependency t) := by
  cases t with
  | iface n => simp only [RState.paramCount] at h; simp [RState.findParam, h]
  | err => simp only [RState.paramCount] at h; simp [RState.findParam, h]
  | slice elemT =>
    simp only [RState.paramCount] at h; simp [RState.findParam, h]
  | nonIface => simp only [RState.paramCount] at h; simp [RState.findParam, h]

/-- A parameter `findParam` resolves has a zero relevant count. -/
theorem findParam_ok_count (r : RState) (t : Ty) (v : Stored)
    (h : r.findParam t = Except.ok v) : r.paramCount t = 0 := by
  by_cases hc : r.paramCount t > 0
  · rw [findParam_missing_of_count r t hc] at h
    exact absurd h (by simp)
  · omega

/-- An error of `findParam` matching `ErrMissingDependency` can only come
from the positive-count check. -/
theorem findParam_error_missing_count (r : RState) (t : Ty) (e : Err)
    (h : r.findParam t = Except.error e) (hm : e.isMissingDep = true) :
    r.paramCount t > 0 := by
  by_cases hc : r.paramCount t > 0
  · exact hc
  · exfalso
    have hc0 : r.paramCount t = 0 := by omega
    cases t with
    | slice elemT =>
      simp only [RState.paramCount] at hc0
      rcases hval : assocGet r.values (Ty.slice elemT) with _ | v
      · simp [RState.findParam, hc0, hval] at h
      · simp [RState.findParam, hc0, hval] at h
    | iface n =>
      simp only [RState.paramCount] at hc0
      rcases hval : assocGet r.values (Ty.iface n) with _ | v
      · simp [RState.findParam, hc0, hval] at h
        subst h
        simp [Err.isMissingDep] at hm
      · simp [RState.findParam, hc0, hval] at h
    | err =>
      simp only [RState.paramCount] at hc0
      rcases hval : assocGet r.values Ty.err with _ | v
      · simp [RState.findParam, hc0, hval] at h
        subst h
        simp [Err.isMissingDep] at hm
      · simp [RState.findParam, hc0, hval] at h
    | nonIface =>
      simp only [RState.paramCount] at hc0
      rcases hval : assocGet r.values Ty.nonIface with _ | v
      · simp [RState.findParam, hc0, hval] at h
        subst h
        simp [Err.isMissingDep] at hm
      · simp [RState.findParam, hc0, hval] at h

/-- With a zero relevant count and a stored value, `findParam` returns
that value. -/
theorem findParam_ok_of_value (r : RState) (t : Ty) (v : Stored)
    (hc : r.paramCount t = 0) (hv : assocGet r.values t = some v) :
    r.findParam t = Except.ok v := by
  cases t with
  | slice elemT =>
    simp only [RState.paramCount] at hc
    simp [RState.findParam, hc, hv]
  | iface n =>
    simp only [RState.paramCount] at hc
    simp [RState.findParam, hc, hv]
  | err =>
    simp only [RState.paramCount] at hc
    simp [RState.findParam, hc, hv]
  | nonIface =>
    simp only [RState.paramCount] at hc
    simp [RState.findParam, hc, hv]

/-- The input-collection loop fails with an `ErrMissingDependency`-matching
error exactly when some parameter has a positive relevant count and every
parameter declared before the first such failing one resolves. -/
theorem findParams_missing_iff (r : RState) :
    ∀ params : List Ty,
      (∃ e, r.findParams params = Except.error e ∧ e.isMissingDep = true) ↔
      (∃ pre t post, params = pre ++ t :: post ∧ r.paramCount t > 0 ∧
        ∀ u ∈ pre, ∃ v, r.findParam u = Except.ok v) := by
  intro params
  induction params with
  | nil =>
    constructor
    · rintro ⟨e, he, -⟩
      simp [RState.findParams] at he
    · rintro ⟨pre, t, post, hsplit, -, -⟩
      exact absurd hsplit (by simp)
  | cons t0 rest ih =>
    constructor
    · rintro ⟨e, he, hmd⟩
      rw [RState.findParams] at he
      rcases hfp : r.findParam t0 with e0 | v
      · rw [hfp] at he
        simp only [Except.error.injEq] at he
        subst he
        refine ⟨[], t0, rest, by simp, ?_, by simp⟩
        exact findParam_error_missing_count r t0 e0 hfp hmd
      · rw [hfp] at he
        rcases hfr : r.findParams rest with e1 | vs
        · rw [hfr] at he
          simp only [Except.error.injEq] at he
          subst he
          obtain ⟨pre, t, post, h1, h2, h3⟩ := ih.mp ⟨e1, hfr, hmd⟩
          refine ⟨t0 :: pre, t, post, by simp [h1], h2, ?_⟩
          intro u hu
          rcases List.mem_cons.mp hu with rfl | hmem
          · exact ⟨v, hfp⟩
          · exact h3 u hmem
        · rw [hfr] at he
          exact absurd he (by simp)
    · rintro ⟨pre, t, post, hsplit, hcnt, hpre⟩
      rcases pre with _ | ⟨u, pre'⟩
      · simp only [List.nil_append, List.cons.injEq] at hsplit
        obtain ⟨rfl, rfl⟩ := hsplit
        refine ⟨Err.missingDependency t0, ?_, rfl⟩
        rw [RState.findParams, findParam_missing_of_count r t0 hcnt]
      · simp only [List.cons_append, List.cons.injEq] at hsplit
        obtain ⟨rfl, hsplit'⟩ := hsplit
        obtain ⟨v, hv⟩ := hpre t0 (by simp)
        obtain ⟨e, he, hmd⟩ := ih.mpr ⟨pre', t, post, hsplit', hcnt, by
          intro u hu; exact hpre u (by simp [hu])⟩
        refine ⟨e, ?_, hmd⟩
        rw [RState.findParams, hv, he]

/-- When every parameter has a zero relevant count and a stored value, the
input-collection loop succeeds. -/
theorem findParams_ok_all (r : RState) :
    ∀ params : List Ty,
      (∀ t ∈ params, r.paramCount t = 0 ∧ assocGet r.values t ≠ none) →
      ∃ vs, r.findParams params = Except.ok vs := by
  intro params
  induction params with
  | nil => intro _; exact ⟨[], rfl⟩
  | cons t0 rest ih =>
    intro hall
    obtain ⟨hc, hv⟩ := hall t0 (by simp)
    rcases hval : assocGet r.values t0 with _ | v
    · exact absurd hval hv
    · obtain ⟨vs, hvs⟩ := ih (by intro u hu; exact hall u (by simp [hu]))
      refine ⟨v :: vs, ?_⟩
      rw [RState.findParams, findParam_ok_of_value r t0 v hc hval, hvs]

/-- The results-processing loop always reports the producer as invoked. -/
theorem processResults_invoked (l : List (Ty × GoValue)) :
    ∀ r : RState, (RState.processResults r l).invoked = true := by
  induction l with
  | nil => intro r; rfl
  | cons tv rest ih =>
    intro r
    obtain ⟨t, v⟩ := tv
    by_cases hn : v.isNil
    · simp [RState.processResults, hn]
    · rcases hh : r.handleProvidedValue v t with e | r2
      · simp [RState.processResults, hn, hh]
      · simp [RState.processResults, hn, hh, ih]

/-- Once the inputs are found, the producer is invoked. -/
theorem resolveProvider_invoked_of_ok (r : RState) (p : Producer)
    (vs : List Stored) (h : r.findParams p.params = Except.ok vs) :
    (r.resolveProvider p).invoked = true := by
  simp only [RState.resolveProvider, h]
  split
  · split
    · exact processResults_invoked _ _
    · rfl
  · exact processResults_invoked _ _

/-- When the inputs cannot be found, the producer is not invoked and the
first failing parameter's error is returned. -/
theorem resolveProvider_of_error (r : RState) (p : Producer) (e : Err)
    (h : r.findParams p.params = Except.error e) :
    r.resolveProvider p = { state := r, error := some e, invoked := false } := by
  unfold RState.resolveProvider
  rw [h]

/-- Claim C1: a resolution pass that resolves zero additional producers
(every attempted producer is deferred) stops `build`, which returns
exactly one `ErrMissingDependency`-wrapped error per producer still
pending in that pass; in particular the mutually dependent producers
`prodA` (needs `iface 1`, makes `iface 2`) and `prodB` (needs `iface 2`,
makes `iface 1`) yield exactly 2 errors, both wrapping
`ErrMissingDependency`. -/
theorem claim1_stall_returns_missing_deps :
    (∀ (r : RState) (p : Producer) (rest : List Producer) (errs : List Err)
        (waiting : List Producer) (r2 : RState) (log2 : List Nat),
        r.producers = p :: rest →
        buildPass r (p :: rest) [] [] [] = PassOut.done errs waiting r2 log2 →
        waiting.length = (p :: rest).length →
        RState.build r = { state := r2, errsOpt := some errs, log := log2 } ∧
        errs.length = r.producers.length ∧
        ∀ e ∈ errs, e.isMissingDep = true) ∧
    (RState.run mutualState).errs =
      [Err.missingDependency (Ty.iface 1), Err.missingDependency (Ty.iface 2)] ∧
    (RState.run mutualState).errs.length = 2 ∧
    ∀ e ∈ (RState.run mutualState).errs, e.isMissingDep = true := by
  refine ⟨?_, by decide, by decide, by decide⟩
  intro r p rest errs waiting r2 log2 hp hpass hlen
  obtain ⟨eE, wE, h1, h2, h3, h4, -⟩ :=
    buildPass_done_facts _ _ _ _ _ _ _ _ _ hpass
  have he : errs = eE := by simpa using h1
  have hw : waiting = wE := by simpa using h2
  refine ⟨?_, ?_, ?_⟩
  · show buildLoop (r.producers.length + 1) r [] = _
    rw [hp]
    simp only [List.length_cons, buildLoop, hp, hpass, hlen, if_pos]
  · rw [hp, he, h3, ← hw, hlen]
  · rw [he]; exact h4

/-- Witness for C1: the stall hypotheses hold concretely for
`mutualState` (its single pass defers both producers), and the theorem
then computes the stalled build result there. -/
theorem claim1_stall_returns_missing_deps_witness :
    (mutualState.producers = prodA :: [prodB] ∧
      buildPass mutualState (prodA :: [prodB]) [] [] [] =
        PassOut.done
          [Err.missingDependency (Ty.iface 1),
            Err.missingDependency (Ty.iface 2)]
          [prodA, prodB] mutualState [] ∧
      ([prodA, prodB] : List Producer).length =
        (prodA :: [prodB]).length) ∧
    (RState.build mutualState =
        { state := mutualState,
          errsOpt := some [Err.missingDependency (Ty.iface 1),
            Err.missingDependency (Ty.iface 2)],
          log := [] } ∧
      ([Err.missingDependency (Ty.iface 1),
        Err.missingDependency (Ty.iface 2)] : List Err).length =
        mutualState.producers.length ∧
      ∀ e ∈ ([Err.missingDependency (Ty.iface 1),
        Err.missingDependency (Ty.iface 2)] : List Err),
        e.isMissingDep = true) :=
  ⟨⟨by decide, by decide, by decide⟩,
    claim1_stall_returns_missing_deps.1 mutualState prodA [prodB]
      [Err.missingDependency (Ty.iface 1), Err.missingDependency (Ty.iface 2)]
      [prodA, prodB] mutualState [] (by decide) (by decide) (by decide)⟩

/-- Claim C2 counterexample: in `mixedState` the producer `mixedConsumer`
has a parameter (`iface 3`) whose capability type still has a positive
expected-producer count, yet its attempt yields `ErrNoProducerMakes` (for
the earlier parameter `iface 2`, which nothing produces), not an
`ErrMissingDependency`-wrapped error — the claimed "if and only if" fails
right-to-left. -/
theorem claim2_counterexample_mixed_params :
    (Ty.iface 3) ∈ mixedConsumer.params ∧
    mixedState.paramCount (Ty.iface 3) > 0 ∧
    (mixedState.resolveProvider mixedConsumer).invoked = false ∧
    (mixedState.resolveProvider mixedConsumer).error =
      some (Err.noProducerMakes (Ty.iface 2)) ∧
    (Err.noProducerMakes (Ty.iface 2)).isMissingDep = false := by
  decide

/-- Claim C2 (amended): a producer's attempt yields an
`ErrMissingDependency`-wrapped error — and the producer is deferred
without being invoked — if and only if some parameter's relevant
capability type (the element type for a sequence parameter) still has a
positive expected-producer count and every parameter declared before that
one resolves; when every parameter's expected count is zero and its value
is present in the Value Store, the producer is invoked. -/
theorem claim2_missing_dependency_iff :
    (∀ (r : RState) (p : Producer),
      ((r.resolveProvider p).invoked = false ∧
        ∃ e, (r.resolveProvider p).error = some e ∧ e.isMissingDep = true) ↔
      (∃ pre t post, p.params = pre ++ t :: post ∧ r.paramCount t > 0 ∧
        ∀ u ∈ pre, ∃ v, r.findParam u = Except.ok v)) ∧
    (∀ (r : RState) (p : Producer),
      (∀ t ∈ p.params, r.paramCount t = 0 ∧ assocGet r.values t ≠ none) →
      (r.resolveProvider p).invoked = true) := by
  constructor
  · intro r p
    constructor
    · rintro ⟨hinv, e, herr, hmd⟩
      rcases hfp : r.findParams p.params with e0 | vs
      · have hre := resolveProvider_of_error r p e0 hfp
        rw [hre] at herr
        have herr2 : some e0 = some e := herr
        have heq : e0 = e := by injection herr2
        have hmd0 : e0.isMissingDep = true := by rw [heq]; exact hmd
        exact (findParams_missing_iff r p.params).mp ⟨e0, hfp, hmd0⟩
      · have hok := resolveProvider_invoked_of_ok r p vs hfp
        rw [hok] at hinv
        exact absurd hinv (by simp)
    · intro hrhs
      obtain ⟨e0, hfp, hmd⟩ := (findParams_missing_iff r p.params).mpr hrhs
      rw [resolveProvider_of_error r p e0 hfp]
      exact ⟨rfl, e0, rfl, hmd⟩
  · intro r p hall
    obtain ⟨vs, hvs⟩ := findParams_ok_all r p.params hall
    exact resolveProvider_invoked_of_ok r p vs hvs

/-- Witness for the amended C2: the deferral direction holds concretely
for `prodA` in `mutualState` (its sole parameter is still expected), and
the invocation direction holds for the dependency-free `supplier1` on a
fresh runner. -/
theorem claim2_missing_dependency_iff_witness :
    ((mutualState.resolveProvider prodA).invoked = false ∧
      ∃ e, (mutualState.resolveProvider prodA).error = some e ∧
        e.isMissingDep = true) ∧
    (RState.new.resolveProvider supplier1).invoked = true :=
  ⟨(claim2_missing_dependency_iff.1 mutualState prodA).mpr
      ⟨[], Ty.iface 1, [], by decide, by decide,
        by intro u hu; simp at hu⟩,
    claim2_missing_dependency_iff.2 RState.new supplier1 (by decide)⟩

/-- Claim C3: teardown iterates the recorded closers in strict reverse
production order — the closer-invocation log is an in-order prefix of the
reversed closer record — and concretely, with `closerP1` (no deps, makes
`iface 1`) and `closerP2` (needs `iface 1`, makes `iface 2`), both
closer-capable, the value produced by P2 (vid 2) is closed strictly
before the value produced by P1 (vid 1). -/
theorem claim3_close_reverse_order :
    (∀ (r : RState) (errs : List Err),
      ∃ rest, (r.close errs).log ++ rest =
        (r.closers.reverse.filter invokable).map GoValue.vid) ∧
    RState.run closerState =
      { errs := [Err.noMain], callLog := [1, 2], closeLog := [2, 1] } := by
  refine ⟨?_, by decide⟩
  intro r errs
  obtain ⟨rest, hrest⟩ := closeRev_log_order r.closers.reverse errs []
  exact ⟨rest, by simpa [RState.close] using hrest⟩

/-- Claim C4: when a delay closer lets the shared timer fire, exactly one
`ErrDelayCloserTimeout` is appended and the teardown loop aborts
immediately: the result is the errors accumulated over the closers
recorded after the timed-out one (those are processed first) followed by
exactly `ErrDelayCloserTimeout`, the log ends at the timed-out closer,
and every invoked closer is the timed-out one or one recorded after it —
closers recorded before it (scheduled after it) are never invoked. -/
theorem claim4_delay_timeout_aborts (r : RState) (pre post : List GoValue)
    (v : GoValue) (errs : List Err)
    (hsplit : r.closers = pre ++ v :: post)
    (hv : v.closer = CloserSpec.delayCloser DelayOutcome.timesOut)
    (hpost : (closeRev post.reverse errs []).aborted = false) :
    r.close errs =
      { errs := (closeRev post.reverse errs []).errs ++
          [Err.delayCloserTimeout],
        log := (closeRev post.reverse errs []).log ++ [v.vid],
        aborted := true } ∧
    ∀ n ∈ (r.close errs).log, n = v.vid ∨ n ∈ post.map GoValue.vid := by
  have hrev : r.closers.reverse = post.reverse ++ v :: pre.reverse := by
    rw [hsplit]; simp
  have happ := closeRev_append post.reverse (v :: pre.reverse) errs [] hpost
  have hstep : closeRev (v :: pre.reverse)
      (closeRev post.reverse errs []).errs
      (closeRev post.reverse errs []).log =
      { errs := (closeRev post.reverse errs []).errs ++
          [Err.delayCloserTimeout],
        log := (closeRev post.reverse errs []).log ++ [v.vid],
        aborted := true } := by
    simp [closeRev, hv]
  have hclose : r.close errs =
      { errs := (closeRev post.reverse errs []).errs ++
          [Err.delayCloserTimeout],
        log := (closeRev post.reverse errs []).log ++ [v.vid],
        aborted := true } := by
    rw [RState.close, hrev, happ, hstep]
  refine ⟨hclose, ?_⟩
  intro n hn
  rw [hclose] at hn
  have hn2 : n ∈ (closeRev post.reverse errs []).log ++ [v.vid] := hn
  rcases List.mem_append.mp hn2 with h1 | h2
  · rcases closeRev_log_mem post.reverse errs [] n h1 with h3 | h4
    · simp at h3
    · right; simpa using h4
  · left; simpa using h2

/-- Witness for C4: with closers recorded in the order `earlyCloser`,
`timeoutCloser`, `lateCloser`, teardown invokes `lateCloser` (vid 1),
times out on `timeoutCloser` (vid 2), and never invokes `earlyCloser`. -/
theorem claim4_delay_timeout_aborts_witness :
    (timeoutState.closers = [earlyCloser] ++ timeoutCloser :: [lateCloser] ∧
      timeoutCloser.closer = CloserSpec.delayCloser DelayOutcome.timesOut ∧
      (closeRev ([lateCloser] : List GoValue).reverse [] []).aborted =
        false) ∧
    (timeoutState.close [] =
        { errs := (closeRev ([lateCloser] : List GoValue).reverse [] []).errs
            ++ [Err.delayCloserTimeout],
          log := (closeRev ([lateCloser] : List GoValue).reverse [] []).log
            ++ [timeoutCloser.vid],
          aborted := true } ∧
      ∀ n ∈ (timeoutState.close []).log,
        n = timeoutCloser.vid ∨ n ∈ ([lateCloser] : List GoValue).map
          GoValue.vid) :=
  ⟨⟨by decide, by decide, by decide⟩,
    claim4_delay_timeout_aborts timeoutState [earlyCloser] [lateCloser]
      timeoutCloser [] (by decide) (by decide) (by decide)⟩

/-- Claim C5: a sequence parameter whose element capability type has no
expected producers and no stored slice binds to the empty sequence
without error, and resolution proceeds: concretely `sliceConsumer`
(consuming a slice of the never-produced `iface 5`) is invoked with the
empty slice and the whole run finishes with zero errors. -/
theorem claim5_empty_slice_binding :
    (∀ (r : RState) (elemT : Ty),
      countGet r.produceCounts elemT = 0 →
      assocGet r.values (Ty.slice elemT) = none →
      r.findParam (Ty.slice elemT) = Except.ok (Stored.list [])) ∧
    RState.run sliceState = { errs := [], callLog := [1], closeLog := [] } := by
  refine ⟨?_, by decide⟩
  intro r elemT hc hv
  simp [RState.findParam, hc, hv]

/-- Witness for C5: on a fresh runner, a slice of `iface 5` binds to the
empty slice. -/
theorem claim5_empty_slice_binding_witness :
    (countGet RState.new.produceCounts (Ty.iface 5) = 0 ∧
      assocGet RState.new.values (Ty.slice (Ty.iface 5)) = none) ∧
    RState.new.findParam (Ty.slice (Ty.iface 5)) =
      Except.ok (Stored.list []) :=
  ⟨⟨rfl, rfl⟩, claim5_empty_slice_binding.1 RState.new (Ty.iface 5) rfl rfl⟩

/-- Claim C6: a bare (non-slice) capability parameter whose type has zero
remaining expected producers and no stored value fails with
`ErrNoProducerMakes` the first time its producer is attempted — an error
the build loop treats as fatal, not as a deferral; concretely, with
`iface 2` supplied by two producers and requested bare by `bareConsumer`,
the run returns exactly one error, `ErrNoProducerMakes`, and the consumer
is never invoked (the call log holds only the two suppliers). -/
theorem claim6_bare_no_producer :
    (∀ (r : RState) (t : Ty),
      t.isSliceKind = false →
      r.paramCount t = 0 →
      assocGet r.values t = none →
      r.findParam t = Except.error (Err.noProducerMakes t) ∧
      (Err.noProducerMakes t).isMissingDep = false) ∧
    RState.run bareState =
      { errs := [Err.noProducerMakes (Ty.iface 2)], callLog := [2, 3],
        closeLog := [] } := by
  refine ⟨?_, by decide⟩
  intro r t hs hc hv
  refine ⟨?_, rfl⟩
  cases t with
  | slice elemT => simp [Ty.isSliceKind] at hs
  | iface n =>
    simp only [RState.paramCount] at hc
    simp [RState.findParam, hc, hv]
  | err =>
    simp only [RState.paramCount] at hc
    simp [RState.findParam, hc, hv]
  | nonIface =>
    simp only [RState.paramCount] at hc
    simp [RState.findParam, hc, hv]

/-- Witness for C6: on a fresh runner, a bare parameter of type
`iface 9` fails with `ErrNoProducerMakes`. -/
theorem claim6_bare_no_producer_witness :
    ((Ty.iface 9).isSliceKind = false ∧
      RState.new.paramCount (Ty.iface 9) = 0 ∧
      assocGet RState.new.values (Ty.iface 9) = none) ∧
    (RState.new.findParam (Ty.iface 9) =
        Except.error (Err.noProducerMakes (Ty.iface 9)) ∧
      (Err.noProducerMakes (Ty.iface 9)).isMissingDep = false) :=
  ⟨⟨rfl, rfl, rfl⟩,
    claim6_bare_no_producer.1 RState.new (Ty.iface 9) rfl rfl rfl⟩

/-- Claim C7: the error slice returned by `run` is ordered by phase — the
resolution errors from `build` first, then exactly the `Main`-phase
errors `mainPhaseErrs` (at most one error: `Main.Run`'s error,
`ErrNoMain`, or the BUG assertion error; nothing when build failed), then
exactly the errors the teardown call appends beyond that input. -/
theorem claim7_phase_ordered_errors (r : RState) :
    ∃ closeErrs : List Err,
      (RState.run r).errs =
        ((RState.build r).errsOpt.getD []) ++ mainPhaseErrs r ++ closeErrs ∧
      (mainPhaseErrs r).length ≤ 1 ∧
      ((RState.build r).errsOpt = none ∨ mainPhaseErrs r = []) ∧
      ((RState.build r).state.close
          (((RState.build r).errsOpt.getD []) ++ mainPhaseErrs r)).errs =
        ((RState.build r).errsOpt.getD []) ++ mainPhaseErrs r ++ closeErrs := by
  rcases hb : (RState.build r).errsOpt with _ | errs
  · rcases hm : assocGet (RState.build r).state.values mainType with _ | st
    · have hmain : mainPhaseErrs r = [Err.noMain] := by
        simp only [mainPhaseErrs, hb, hm]
      obtain ⟨tail, htail⟩ :=
        close_errs_append (RState.build r).state [Err.noMain]
      refine ⟨tail, ?_, by simp [hmain], Or.inl rfl, ?_⟩
      · simp only [RState.run, hb, hm, hmain, Option.getD_none,
          List.nil_append]
        exact htail
      · simp only [hb, hmain, Option.getD_none, List.nil_append]
        exact htail
    · rcases st with v | vs
      · rcases hmr : v.mainRun with _ | ret
        · have hmain : mainPhaseErrs r = [Err.bugMainAssert] := by
            simp only [mainPhaseErrs, hb, hm, hmr]
          obtain ⟨tail, htail⟩ :=
            close_errs_append (RState.build r).state [Err.bugMainAssert]
          refine ⟨tail, ?_, by simp [hmain], Or.inl rfl, ?_⟩
          · simp only [RState.run, hb, hm, hmr, hmain, Option.getD_none,
              List.nil_append]
            exact htail
          · simp only [hb, hmain, Option.getD_none, List.nil_append]
            exact htail
        · rcases ret with _ | e
          · have hmain : mainPhaseErrs r = [] := by
              simp only [mainPhaseErrs, hb, hm, hmr]
            obtain ⟨tail, htail⟩ :=
              close_errs_append (RState.build r).state []
            refine ⟨tail, ?_, by simp [hmain], Or.inl rfl, ?_⟩
            · simp only [RState.run, hb, hm, hmr, hmain, Option.getD_none,
                List.nil_append]
              show (RState.close
                { (RState.build r).state with values := [] } []).errs =
                [] ++ tail
              exact htail
            · simp only [hb, hmain, Option.getD_none, List.nil_append]
              exact htail
          · have hmain : mainPhaseErrs r = [e] := by
              simp only [mainPhaseErrs, hb, hm, hmr]
            obtain ⟨tail, htail⟩ :=
              close_errs_append (RState.build r).state [e]
            refine ⟨tail, ?_, by simp [hmain], Or.inl rfl, ?_⟩
            · simp only [RState.run, hb, hm, hmr, hmain, Option.getD_none,
                List.nil_append]
              show (RState.close
                { (RState.build r).state with values := [] } [e]).errs =
                [e] ++ tail
              exact htail
            · simp only [hb, hmain, Option.getD_none, List.nil_append]
              exact htail
      · have hmain : mainPhaseErrs r = [Err.bugMainAssert] := by
          simp only [mainPhaseErrs, hb, hm]
        obtain ⟨tail, htail⟩ :=
          close_errs_append (RState.build r).state [Err.bugMainAssert]
        refine ⟨tail, ?_, by simp [hmain], Or.inl rfl, ?_⟩
        · simp only [RState.run, hb, hm, hmain, Option.getD_none,
            List.nil_append]
          exact htail
        · simp only [hb, hmain, Option.getD_none, List.nil_append]
          exact htail
  · have hmain : mainPhaseErrs r = [] := by
      simp only [mainPhaseErrs, hb]
    obtain ⟨tail, htail⟩ := close_errs_append (RState.build r).state errs
    refine ⟨tail, ?_, by simp [hmain], Or.inr hmain, ?_⟩
    · simp only [RState.run, hb, hmain, Option.getD_some, List.append_nil]
      exact htail
    · simp only [hb, hmain, Option.getD_some, List.append_nil]
      exact htail

/-- Claim C8 evaluated at the failing input: `wrapProducer` is registered
once but the build loop invokes it twice.  Its call returns a non-nil
error wrapping `ErrMissingDependency`, so `build` classifies the completed
invocation as a deferral and re-attempts — and re-invokes — the producer
in the next pass, contradicting `Run`'s documented "calls all added
producer functions exactly once". -/
theorem claim8_producer_invoked_twice :
    wrapState.producers.map Producer.pid = [1, 2] ∧
    (RState.build wrapState).log = [1, 2, 1] ∧
    (RState.build wrapState).log.count 1 = 2 := by
  decide

/-- Claim C9: with exactly two producers supplying `Main` and no consumer
of `Main`, resolution succeeds and stores both values under the list form
of `Main`; the singleton `Main` slot stays empty, so `run` reports
`ErrNoMain`. -/
theorem claim9_two_mains_no_main :
    (RState.build twoMainState).errsOpt = none ∧
    assocGet (RState.build twoMainState).state.values (Ty.slice mainType) =
      some (Stored.list [mainVal1, mainVal2]) ∧
    assocGet (RState.build twoMainState).state.values mainType = none ∧
    (RState.run twoMainState).errs = [Err.noMain] := by
  decide

/-- With all-valid return types the validation loop succeeds and
increments each type's expected count once per occurrence. -/
theorem addReturns_valid :
    ∀ (outs : List Ty) (counts : List (Ty × Nat)),
      (∀ u ∈ outs, u.isInterfaceKind = true) →
      (addReturns counts outs).2 = none ∧
      ∀ u, countGet (addReturns counts outs).1 u =
        countGet counts u + tyCount outs u := by
  intro outs
  induction outs with
  | nil =>
    intro counts _
    exact ⟨rfl, by intro u; simp [addReturns, tyCount]⟩
  | cons t rest ih =>
    intro counts hall
    have ht : t.isInterfaceKind = true := hall t (by simp)
    have hrest : ∀ u ∈ rest, u.isInterfaceKind = true := by
      intro u hu; exact hall u (by simp [hu])
    obtain ⟨h1, h2⟩ := ih (assocSet counts t (countGet counts t + 1)) hrest
    have hstep : addReturns counts (t :: rest) =
        addReturns (assocSet counts t (countGet counts t + 1)) rest := by
      simp [addReturns, ht]
    refine ⟨by rw [hstep]; exact h1, ?_⟩
    intro u
    rw [hstep, h2 u]
    by_cases htu : t = u
    · subst htu
      have hs : countGet (assocSet counts t (countGet counts t + 1)) t =
          countGet counts t + 1 := by
        simp [countGet, assocGet_set_eq]
      rw [hs]
      simp [tyCount]
      omega
    · have hs : countGet (assocSet counts t (countGet counts t + 1)) u =
          countGet counts u := by
        simp [countGet, assocGet_set_ne counts t u _ htu]
      rw [hs]
      simp [tyCount, htu]

/-- The input-validation loop never clears a `provideSlice` mark. -/
theorem addInputs_keeps_flag :
    ∀ (l : List Ty) (ps : List (Ty × Bool)) (e : Ty),
      flagGet ps e = true → flagGet (addInputs ps l).1 e = true := by
  intro l
  induction l with
  | nil => intro ps e h; simpa [addInputs] using h
  | cons t rest ih =>
    intro ps e h
    rcases t with n | _ | elemT | _
    · simpa [addInputs, Ty.isInterfaceKind] using ih ps e h
    · simpa [addInputs, Ty.isInterfaceKind] using ih ps e h
    · by_cases hk : elemT.isInterfaceKind = true
      · have h2 : flagGet (assocSet ps elemT true) e = true := by
          by_cases he : elemT = e
          · subst he; simp [flagGet, assocGet_set_eq]
          · simpa [flagGet, assocGet_set_ne ps elemT e true he] using h
        simpa [addInputs, hk] using ih (assocSet ps elemT true) e h2
      · simpa [addInputs, hk] using h
    · simpa [addInputs, Ty.isInterfaceKind] using h

/-- An invalid parameter reached after a prefix of valid ones (in scan
order): the loop stops with `ErrProducerInvalidInputs` and every sequence
parameter of the prefix has marked its element type. -/
theorem addInputs_invalid :
    ∀ (pre : List Ty) (t : Ty) (post : List Ty) (ps : List (Ty × Bool)),
      (∀ u ∈ pre, validInput u = true) → validInput t = false →
      (addInputs ps (pre ++ t :: post)).2 = some Err.producerInvalidInputs ∧
      ∀ e, Ty.slice e ∈ pre →
        flagGet (addInputs ps (pre ++ t :: post)).1 e = true := by
  intro pre
  induction pre with
  | nil =>
    intro t post ps _ hinv
    refine ⟨?_, by intro e he; simp at he⟩
    rcases t with n | _ | elemT | _
    · simp [validInput, Ty.isInterfaceKind] at hinv
    · simp [validInput, Ty.isInterfaceKind] at hinv
    · have hk : elemT.isInterfaceKind = false := by
        simpa [validInput] using hinv
      simp [addInputs, hk]
    · simp [addInputs, Ty.isInterfaceKind]
  | cons u pre' ih =>
    intro t post ps hall hinv
    have hu : validInput u = true := hall u (by simp)
    have hall' : ∀ w ∈ pre', validInput w = true := by
      intro w hw; exact hall w (by simp [hw])
    rcases u with n | _ | elemT | _
    · have hrec := ih t post ps hall' hinv
      refine ⟨by simpa [addInputs, Ty.isInterfaceKind] using hrec.1, ?_⟩
      intro e he
      simp only [List.mem_cons] at he
      rcases he with he1 | he2
      · exact absurd he1 (by simp)
      · simpa [addInputs, Ty.isInterfaceKind] using hrec.2 e he2
    · have hrec := ih t post ps hall' hinv
      refine ⟨by simpa [addInputs, Ty.isInterfaceKind] using hrec.1, ?_⟩
      intro e he
      simp only [List.mem_cons] at he
      rcases he with he1 | he2
      · exact absurd he1 (by simp)
      · simpa [addInputs, Ty.isInterfaceKind] using hrec.2 e he2
    · have hk : elemT.isInterfaceKind = true := by
        simpa [validInput] using hu
      have hrec := ih t post (assocSet ps elemT true) hall' hinv
      refine ⟨by simpa [addInputs, hk] using hrec.1, ?_⟩
      intro e he
      simp only [List.mem_cons] at he
      rcases he with he1 | he2
      · have heq : e = elemT := by
          have := he1
          simp only [Ty.slice.injEq] at this
          exact this
        have hset : flagGet (assocSet ps elemT true) e = true := by
          rw [heq]; simp [flagGet, assocGet_set_eq]
        have hkeep := addInputs_keeps_flag (pre' ++ t :: post)
          (assocSet ps elemT true) e hset
        simpa [addInputs, hk] using hkeep
      · simpa [addInputs, hk] using hrec.2 e he2
    · simp [validInput, Ty.isInterfaceKind] at hu

/-- Claim C10: when every effective return type of a producer is a valid
capability type but some parameter is invalid, `add` returns
`ErrProducerInvalidInputs` without rolling back the catalog: every return
type's expected count stays incremented, every sequence parameter scanned
before the invalid one (the scan runs from the last parameter to the
first) keeps its mark in the list requirement, and the producer is not
appended to the producer list. -/
theorem claim10_add_keeps_side_effects (r : RState) (p : Producer)
    (pre : List Ty) (t : Ty) (post : List Ty)
    (houts : ∀ u ∈ p.effOutTys, u.isInterfaceKind = true)
    (hsplit : p.params.reverse = pre ++ t :: post)
    (hpre : ∀ u ∈ pre, validInput u = true)
    (hinv : validInput t = false) :
    (r.add (AddArg.func p)).2 = some Err.producerInvalidInputs ∧
    (r.add (AddArg.func p)).1.producers = r.producers ∧
    (∀ u, countGet (r.add (AddArg.func p)).1.produceCounts u =
      countGet r.produceCounts u + tyCount p.effOutTys u) ∧
    (∀ e, Ty.slice e ∈ pre →
      flagGet (r.add (AddArg.func p)).1.provideSlice e = true) := by
  obtain ⟨hr1, hr2⟩ := addReturns_valid p.effOutTys r.produceCounts houts
  have hi := addInputs_invalid pre t post r.provideSlice hpre hinv
  rw [← hsplit] at hi
  obtain ⟨hi1, hi2⟩ := hi
  rcases hAR : addReturns r.produceCounts p.effOutTys with ⟨counts2, e1⟩
  have he1 : e1 = none := by rw [hAR] at hr1; exact hr1
  subst he1
  rcases hAI : addInputs r.provideSlice p.params.reverse with ⟨ps2, e2⟩
  have he2 : e2 = some Err.producerInvalidInputs := by
    rw [hAI] at hi1; exact hi1
  subst he2
  have hadd : r.add (AddArg.func p) =
      ({ r with produceCounts := counts2, provideSlice := ps2 },
        some Err.producerInvalidInputs) := by
    rw [RState.add, hAR, hAI]
  refine ⟨by rw [hadd], by rw [hadd], ?_, ?_⟩
  · intro u
    rw [hadd]
    show countGet counts2 u = countGet r.produceCounts u +
      tyCount p.effOutTys u
    have : counts2 = (addReturns r.produceCounts p.effOutTys).1 := by
      rw [hAR]
    rw [this]
    exact hr2 u
  · intro e he
    rw [hadd]
    show flagGet ps2 e = true
    have : ps2 = (addInputs r.provideSlice p.params.reverse).1 := by
      rw [hAI]
    rw [this]
    exact hi2 e he

/-- Witness for C10: a fresh runner, the producer with parameters
`(int, []iface3)` and return `iface 2`: `add` fails with
`ErrProducerInvalidInputs`, yet `iface 2`'s expected count is 1 and
`iface 3` stays marked for list delivery, while no producer is
appended. -/
theorem claim10_add_keeps_side_effects_witness :
    ((∀ u ∈ invalidInputProducer.effOutTys, u.isInterfaceKind = true) ∧
      invalidInputProducer.params.reverse =
        [Ty.slice (Ty.iface 3)] ++ Ty.nonIface :: [] ∧
      (∀ u ∈ ([Ty.slice (Ty.iface 3)] : List Ty), validInput u = true) ∧
      validInput Ty.nonIface = false) ∧
    ((RState.new.add (AddArg.func invalidInputProducer)).2 =
        some Err.producerInvalidInputs ∧
      (RState.new.add (AddArg.func invalidInputProducer)).1.producers =
        RState.new.producers ∧
      (∀ u, countGet
        (RState.new.add (AddArg.func invalidInputProducer)).1.produceCounts
          u =
        countGet RState.new.produceCounts u +
          tyCount invalidInputProducer.effOutTys u) ∧
      (∀ e, Ty.slice e ∈ ([Ty.slice (Ty.iface 3)] : List Ty) →
        flagGet
          (RState.new.add (AddArg.func invalidInputProducer)).1.provideSlice
          e = true)) :=
  ⟨⟨by decide, by decide, by decide, by decide⟩,
    claim10_add_keeps_side_effects RState.new invalidInputProducer
      [Ty.slice (Ty.iface 3)] Ty.nonIface [] (by decide) (by decide)
      (by decide) (by decide)⟩

end Runner
